import Mathlib

/-!
# Verification of the Sentinel-1 land-mask pipeline

A shallow embedding of the core of the `Sentinel-1-Land-Mask` repository:
WorldCover tile-grid selection (`src/worldcover/tiles.py`,
`src/select_worldcover_tiles.py`), tile accumulation onto the Sentinel-1 grid
(`src/worldcover/reprojection.py`), land/water classification and morphological
cleanup (`src/worldcover/mask.py`, `src/land_mask_hybrid.py`,
`src/run_land_mask.py`), and mask application.

Geographic coordinates (Python floats) are modelled as rationals; numpy
arrays over a fixed destination grid are modelled as functions from pixel
positions; float arrays that may contain the NaN "missing" sentinel are
modelled as `Option ℚ` valued arrays with `none` playing the role of NaN.
-/

namespace SentinelLandMask

/-! ## GeoGrid: `snap_to_worldcover_grid` and the tile-enumeration loops

From `src/worldcover/tiles.py` (identical in `src/select_worldcover_tiles.py`).
-/

/-- Embeds `snap_to_worldcover_grid` from `src/worldcover/tiles.py`:
`int(math.floor(value / 3.0) * 3)` — floor toward negative infinity,
then multiply back by the cell size 3. -/
def snap_to_worldcover_grid (value : ℚ) : ℤ :=
  ⌊value / 3⌋ * 3

/-- Left-pad a decimal numeral with zeros, as Python `f"{n:0kd}"` does for
nonnegative `n`. -/
def padZeros (width : Nat) (n : Nat) : String :=
  let s := toString n
  String.mk (List.replicate (width - s.length) '0') ++ s

/-- Embeds `worldcover_tile_name` from `src/worldcover/tiles.py`: hemisphere
prefix plus zero-padded southwest-corner coordinates. -/
def worldcover_tile_name (lat lon : ℤ) (suffix : String) : String :=
  let latStr := if lat ≥ 0 then "N" ++ padZeros 2 lat.toNat else "S" ++ padZeros 2 (-lat).toNat
  let lonStr := if lon < 0 then "W" ++ padZeros 3 (-lon).toNat else "E" ++ padZeros 3 lon.toNat
  "ESA_WorldCover_10m_2021_V200_" ++ latStr ++ lonStr ++ suffix

/-- The successive values taken by a counter of the `while` loops in
`find_required_worldcover_tiles` (`src/worldcover/tiles.py`, lines 66–86):
starting at `start` and repeatedly incremented by 3 while strictly below
`stop`.  Rendered in closed form; `gridSteps_unfold` below proves it
satisfies the loop's recurrence. -/
def gridSteps (start : ℤ) (stop : ℚ) : List ℤ :=
  (List.range (⌈(stop - start) / 3⌉).toNat).map (fun i : ℕ => start + 3 * (i : ℤ))

/-- The per-cell intersection test of `find_required_worldcover_tiles`
(`src/worldcover/tiles.py`, lines 75–80), with `tile_s = lat`,
`tile_n = lat + 3`, `tile_w = lon`, `tile_e = lon + 3`. -/
def tileIntersects (west south east north : ℚ) (lat lon : ℤ) : Bool :=
  !(decide (((lon : ℚ) + 3) ≤ west) || decide ((lon : ℚ) ≥ east) ||
    decide (((lat : ℚ) + 3) ≤ south) || decide ((lat : ℚ) ≥ north))

/-- The set of candidate grid cells (keyed by snapped southwest corner)
enumerated by the nested `while` loops of `find_required_worldcover_tiles`
(`src/worldcover/tiles.py`, lines 64–86). -/
def worldcoverCells (west south east north : ℚ) : List (ℤ × ℤ) :=
  (gridSteps (snap_to_worldcover_grid south) north).flatMap (fun lat =>
    ((gridSteps (snap_to_worldcover_grid west) east).filter
      (fun lon => tileIntersects west south east north lat lon)).map
      (fun lon => (lat, lon)))

/-- The error raised by `find_required_worldcover_tiles` when no tile file
exists: `RuntimeError("No matching WorldCover tiles found.")`; the spec calls
this error kind `NoTilesFoundError`. -/
def NoTilesFoundError : String := "No matching WorldCover tiles found."

/-- Embeds `find_required_worldcover_tiles` (`src/worldcover/tiles.py`,
lines 27–102) on the `bounds_wgs84` path: enumerate candidate cells, map them
to tile names, sort (Python iterates `sorted(tiles)` over the set), keep
those existing in the tile directory (`dirContains` abstracts `p.exists()`),
and fail when none remain. -/
def find_required_worldcover_tiles (west south east north : ℚ)
    (suffix : String) (dirContains : String → Bool) :
    Except String (List String) :=
  let tiles := ((worldcoverCells west south east north).map
    (fun c => worldcover_tile_name c.1 c.2 suffix)).dedup
  let paths := (tiles.mergeSort (fun a b => decide (a ≤ b))).filter dirContains
  if paths.isEmpty then Except.error NoTilesFoundError else Except.ok paths

/-! ## Destination-grid arrays

All arrays derived from a scene share its fixed pixel grid; a pixel position
is a pair of row/column indices and an array is a function on positions. -/

/-- A pixel position on an `h × w` destination grid. -/
abbrev Pix (h w : Nat) : Type := Fin h × Fin w

/-- A boolean raster co-registered with the destination grid. -/
abbrev PixMask (h w : Nat) : Type := Pix h w → Bool

/-! ## MaskBuilder: land/water classification rules -/

/-- WorldCover land classes from `src/land_mask_hybrid.py`, line 32. -/
def LAND_CLASSES : List ℤ := [10, 20, 30, 40, 50, 60, 70, 90, 95, 100]

/-- Per-pixel rule of `build_land_mask` (`src/worldcover/mask.py`, lines
16–20): land is any code other than 0, open water 80, and the reprojection
nodata −1. -/
def worldcover_land_rule (v : ℤ) : Bool :=
  decide (v ≠ 0) && decide (v ≠ 80) && decide (v ≠ -1)

/-- Per-pixel rule of `src/land_mask_hybrid.py`, lines 104–106: the mask
starts all-`false`, and only pixels valid in WorldCover (code ≠ −1) get
`np.isin(code, LAND_CLASSES)`. -/
def hybrid_land_rule (v : ℤ) : Bool :=
  if v ≠ -1 then decide (v ∈ LAND_CLASSES) else false

/-- Per-pixel rule of `src/run_land_mask.py`, line 163 on the preprocessed
binary convention (land = 1, water = 0, nodata = 255): `land_mask == 1`. -/
def binary_land_rule (v : ℤ) : Bool := v == 1

/-- The classification stage applied to an aligned code array. -/
def landMaskOfCodes {h w : Nat} (wc : Pix h w → ℤ) : PixMask h w :=
  fun p => worldcover_land_rule (wc p)

/-- The classification stage of the hybrid script. -/
def landMaskHybrid {h w : Nat} (wc : Pix h w → ℤ) : PixMask h w :=
  fun p => hybrid_land_rule (wc p)

/-- The classification stage on the binary convention. -/
def landMaskBinary {h w : Nat} (wc : Pix h w → ℤ) : PixMask h w :=
  fun p => binary_land_rule (wc p)

/-! ## MorphologicalCleaner: scipy.ndimage operations

`binary_opening`, `binary_closing`, `binary_fill_holes` and `binary_dilation`
are called with `structure=None`, so every operation uses scipy's default
structuring element `generate_binary_structure(2, 1)`: the 3×3 cross, i.e.
the centre plus its 4 orthogonal neighbours (diagonals are NOT neighbours),
and the default `border_value=0` (`binary_fill_holes` internally dilates with
`border_value=1`). -/

/-- 4-connectivity (scipy's default connectivity-1 structure, centre
excluded): orthogonal neighbours only. -/
def adj4B {h w : Nat} (p q : Pix h w) : Bool :=
  Nat.dist p.1.val q.1.val + Nat.dist p.2.val q.2.val == 1

/-- Full 2D connectivity (8-connectivity): all 8 surrounding pixels. -/
def adj8B {h w : Nat} (p q : Pix h w) : Bool :=
  decide (Nat.dist p.1.val q.1.val ≤ 1) && decide (Nat.dist p.2.val q.2.val ≤ 1)
    && decide (p ≠ q)

/-- A pixel on the image border, i.e. one with an out-of-bounds neighbour
under the cross structure — the pixels seeded by `border_value=1`. -/
def onBorderB {h w : Nat} (p : Pix h w) : Bool :=
  p.1.val == 0 || p.1.val == h - 1 || p.2.val == 0 || p.2.val == w - 1

/-- One masked-dilation step of `binary_fill_holes`'s internal
`binary_dilation(tmp, None, -1, mask, output, 1)`: grow the reached set `s`
within the background `mask = ~m` from the border (`border_value=1`) and
through 4-neighbours. -/
def dilateStep {h w : Nat} (m s : PixMask h w) : PixMask h w :=
  fun p => !m p && (s p || onBorderB p ||
    decide (∃ q, adj4B q p = true ∧ s q = true))

/-- The fixpoint of the masked dilation (`iterations=-1`): iterating one step
per pixel saturates, as proved in `floodReach_isFixpoint`. -/
def floodReach {h w : Nat} (m : PixMask h w) : PixMask h w :=
  (dilateStep m)^[h * w] (fun _ => false)

/-- Embeds `scipy.ndimage.binary_fill_holes(m)` as called in
`src/worldcover/mask.py` line 25, `src/land_mask_hybrid.py` line 114 and
`src/run_land_mask.py` line 165: the logical negation of the background
region grown from the border. -/
def binary_fill_holes {h w : Nat} (m : PixMask h w) : PixMask h w :=
  fun p => !(floodReach m p)

/-- One binary dilation with the default cross structure and
`border_value=0`. -/
def dilateOnce {h w : Nat} (s : PixMask h w) : PixMask h w :=
  fun p => s p || decide (∃ q, adj4B q p = true ∧ s q = true)

/-- One binary erosion with the default cross structure and
`border_value=0` (out-of-bounds counts as background, so border pixels are
always eroded). -/
def erodeOnce {h w : Nat} (s : PixMask h w) : PixMask h w :=
  fun p => s p && !onBorderB p &&
    decide (∀ q, adj4B q p = true → s q = true)

/-- `scipy.ndimage.binary_dilation(s, iterations=n)`. -/
def binary_dilation {h w : Nat} (s : PixMask h w) (iterations : Nat) : PixMask h w :=
  dilateOnce^[iterations] s

/-- `scipy.ndimage.binary_erosion(s, iterations=n)`. -/
def binary_erosion {h w : Nat} (s : PixMask h w) (iterations : Nat) : PixMask h w :=
  erodeOnce^[iterations] s

/-- `scipy.ndimage.binary_opening(s, iterations=n)`: erosion then dilation. -/
def binary_opening {h w : Nat} (s : PixMask h w) (iterations : Nat) : PixMask h w :=
  binary_dilation (binary_erosion s iterations) iterations

/-- `scipy.ndimage.binary_closing(s, iterations=n)`: dilation then erosion. -/
def binary_closing {h w : Nat} (s : PixMask h w) (iterations : Nat) : PixMask h w :=
  binary_erosion (binary_dilation s iterations) iterations

/-- A step of a flood fill walking from `x` to a neighbouring (under `adj`)
pixel `y` that is `false` (water) in `m`. -/
def adjFalseStep {h w : Nat} (adj : Pix h w → Pix h w → Bool) (m : PixMask h w)
    (x y : Pix h w) : Prop :=
  adj x y = true ∧ m y = false

/-- Modelled from the spec: `p` lies in a `false` region of `m` reachable
from the mask's border by a flood fill through `false` pixels under the
adjacency `adj` (`adj8B` gives the spec's "full 2D connectivity" reading;
`adj4B` the structuring element the code actually uses). -/
def ReachesBorder {h w : Nat} (adj : Pix h w → Pix h w → Bool) (m : PixMask h w)
    (p : Pix h w) : Prop :=
  m p = false ∧ ∃ b, onBorderB b = true ∧ m b = false ∧
    Relation.ReflTransGen (adjFalseStep adj m) b p

/-- The 3×3 mask with `false` at the centre and at the bottom-right corner
and `true` elsewhere: the centre is 8-connected but not 4-connected to the
border water pixel. -/
def diagHoleMask : PixMask 3 3 :=
  fun p => !((p.1.val == 1 && p.2.val == 1) || (p.1.val == 2 && p.2.val == 2))

/-! ## MaskApplicator -/

/-- Stamping the mask onto a co-registered float array, writing the NaN
"missing" sentinel (modelled as `none`) at `true` pixels: embeds
`hh_masked[land_mask] = np.nan` (`src/run_land_mask.py`, lines 172–173) and
`np.where(land_mask == 1, np.nan, hh)` (`src/land_mask_hybrid.py`, line 131). -/
def applyLandMask {h w : Nat} (mask : PixMask h w) (data : Pix h w → Option ℚ) :
    Pix h w → Option ℚ :=
  fun p => if mask p then none else data p

/-! ## RasterAligner: direct multi-tile accumulation

From `src/worldcover/reprojection.py`.  The external reprojection capability
(`rasterio.warp.reproject`) and the coordinate transform of each tile's
bounds into the destination CRS (`transform_bounds`) are collaborators: the
embedding takes the transformed per-tile bounds and the per-tile resampling
action as parameters, and models the loop, the bounding-box skip test and
the nodata initialisation of the destination buffer. -/

/-- An axis-aligned bounding box (left, bottom, right, top). -/
structure GeoBounds where
  left : ℚ
  bottom : ℚ
  right : ℚ
  top : ℚ

/-- The skip test of the accumulation loops (`src/worldcover/reprojection.py`,
lines 76–82 and 198–204): the tile's reprojected bounds do not intersect the
destination bounds. -/
def tileOutsideDst (src dst : GeoBounds) : Bool :=
  decide (src.right ≤ dst.left) || decide (src.left ≥ dst.right) ||
    decide (src.top ≤ dst.bottom) || decide (src.bottom ≥ dst.top)

/-- Embeds `reproject_worldcover_tiles_to_s1`
(`src/worldcover/reprojection.py`, lines 42–99): the destination starts
entirely at `dst_nodata`; tiles failing the bounds test are skipped;
otherwise the external `reproject` writes the tile into the running buffer
(receiving the `init_dest_nodata=first_write` flag). -/
def reproject_worldcover_tiles_to_s1 {h w : Nat} {Tile : Type}
    (tile_paths : List Tile) (srcBounds : Tile → GeoBounds) (dstBounds : GeoBounds)
    (dst_nodata : ℤ)
    (reproject : Tile → (Pix h w → ℤ) → Bool → (Pix h w → ℤ)) : Pix h w → ℤ :=
  (tile_paths.foldl
    (fun st tile =>
      if tileOutsideDst (srcBounds tile) dstBounds then st
      else (reproject tile st.1 st.2, false))
    ((fun _ => dst_nodata), true)).1

/-- Embeds `reproject_preprocessed_landmask_tiles_to_s1`
(`src/worldcover/reprojection.py`, lines 166–221): the same accumulation
loop on the binary land-mask convention (`uint8`, nodata 255 by default). -/
def reproject_preprocessed_landmask_tiles_to_s1 {h w : Nat} {Tile : Type}
    (tile_paths : List Tile) (srcBounds : Tile → GeoBounds) (dstBounds : GeoBounds)
    (dst_nodata : ℤ)
    (reproject : Tile → (Pix h w → ℤ) → Bool → (Pix h w → ℤ)) : Pix h w → ℤ :=
  (tile_paths.foldl
    (fun st tile =>
      if tileOutsideDst (srcBounds tile) dstBounds then st
      else (reproject tile st.1 st.2, false))
    ((fun _ => dst_nodata), true)).1

/-! ## A store of float arrays, for the aliasing behaviour of numpy

`build_land_mask` receives a reference to the caller's SAR array and calls
`.copy()` before the masked in-place assignment; the store makes copy versus
in-place mutation observable. -/

/-- A heap of float arrays; references are indices below `size`. -/
structure FloatStore (h w : Nat) where
  size : Nat
  data : Nat → Pix h w → Option ℚ

/-- `sar_array.copy()`: allocate a fresh array holding the same pixels as
the array referenced by `src`, returning the new reference. -/
def FloatStore.copyAlloc {h w : Nat} (st : FloatStore h w) (src : Nat) :
    Nat × FloatStore h w :=
  (st.size, ⟨st.size + 1, fun i => if i = st.size then st.data src else st.data i⟩)

/-- `arr[mask] = np.nan`: in-place masked assignment of the NaN sentinel
into the array referenced by `r`. -/
def FloatStore.maskedFillNan {h w : Nat} (st : FloatStore h w) (r : Nat)
    (mask : PixMask h w) : FloatStore h w :=
  ⟨st.size, fun i => if i = r then
      (fun p => if mask p then none else st.data r p) else st.data i⟩

/-- Embeds `build_land_mask` (`src/worldcover/mask.py`, lines 6–30):
classify, clean up morphologically (opening 1, closing 2, fill holes), copy
the SAR array, write NaN at land pixels of the copy, and return the mask
with the reference to the masked copy. -/
def build_land_mask {h w : Nat} (worldcover_array : Pix h w → ℤ) (sarRef : Nat)
    (st : FloatStore h w) : PixMask h w × Nat × FloatStore h w :=
  let land_mask0 := landMaskOfCodes worldcover_array
  let land_mask1 := binary_opening land_mask0 1
  let land_mask2 := binary_closing land_mask1 2
  let land_mask3 := binary_fill_holes land_mask2
  let alloc := st.copyAlloc sarRef
  let st2 := alloc.2.maskedFillNan alloc.1 land_mask3
  (land_mask3, alloc.1, st2)

/-! ### Loop semantics of `gridSteps` -/

theorem gridSteps_length (start : ℤ) (stop : ℚ) :
    (gridSteps start stop).length = (⌈(stop - start) / 3⌉).toNat := by
  simp [gridSteps]

theorem gridSteps_unfold (start : ℤ) (stop : ℚ) :
    gridSteps start stop =
      (if (start : ℚ) < stop then start :: gridSteps (start + 3) stop else []) := by
  by_cases h : (start : ℚ) < stop
  · have hpos : (0 : ℚ) < (stop - start) / 3 := by
      apply div_pos _ (by norm_num)
      linarith
    have hceil : 1 ≤ ⌈(stop - start) / 3⌉ := by
      exact Int.ceil_pos.mpr hpos
    obtain ⟨M, hM⟩ : ∃ M : ℕ, (⌈(stop - start) / 3⌉).toNat = M + 1 := by
      refine ⟨(⌈(stop - start) / 3⌉).toNat - 1, ?_⟩
      omega
    have hM' : (⌈(stop - ((start + 3 : ℤ) : ℚ)) / 3⌉).toNat = M := by
      have e : (stop - ((start + 3 : ℤ) : ℚ)) / 3 = (stop - start) / 3 - 1 := by
        push_cast
        ring
      rw [e, Int.ceil_sub_one]
      omega
    rw [if_pos h]
    unfold gridSteps
    rw [hM, hM', List.range_succ_eq_map, List.map_cons, List.map_map]
    congr 1
    · norm_num
    · apply List.map_congr_left
      intro i _
      simp only [Function.comp_apply]
      push_cast
      ring
  · have h' : stop - (start : ℚ) ≤ 0 := by
      push_neg at h
      linarith
    have hle : ⌈(stop - start) / 3⌉ ≤ (0 : ℤ) := by
      rw [Int.ceil_le]
      push_cast
      apply div_nonpos_of_nonpos_of_nonneg h' (by norm_num)
    have hz : (⌈(stop - start) / 3⌉).toNat = 0 := by omega
    rw [if_neg h]
    unfold gridSteps
    rw [hz]
    rfl

theorem mem_gridSteps {start la : ℤ} {stop : ℚ} :
    la ∈ gridSteps start stop ↔
      start ≤ la ∧ (la : ℚ) < stop ∧ (3 : ℤ) ∣ (la - start) := by
  simp only [gridSteps, List.mem_map, List.mem_range]
  constructor
  · rintro ⟨i, hi, rfl⟩
    have h1 : (i : ℤ) < ⌈(stop - start) / 3⌉ := by omega
    have h2 : ((i : ℤ) : ℚ) < (stop - start) / 3 := Int.lt_ceil.mp h1
    rw [lt_div_iff₀ (by norm_num : (0:ℚ) < 3)] at h2
    refine ⟨by omega, ?_, ⟨i, by ring⟩⟩
    push_cast at h2 ⊢
    linarith
  · rintro ⟨hle, hlt, k, hk⟩
    have hk0 : 0 ≤ k := by omega
    have hlaq : (la : ℚ) = (start : ℚ) + 3 * (k : ℚ) := by
      have e : ((la - start : ℤ) : ℚ) = ((3 * k : ℤ) : ℚ) := by
        exact_mod_cast congrArg (fun z : ℤ => (z : ℚ)) hk
      push_cast at e
      linarith
    have h2 : ((k : ℤ) : ℚ) < (stop - start) / 3 := by
      rw [lt_div_iff₀ (by norm_num : (0:ℚ) < 3)]
      linarith
    have h3 : k < ⌈(stop - start) / 3⌉ := Int.lt_ceil.mpr h2
    exact ⟨k.toNat, by omega, by omega⟩

theorem dvd_snap (s : ℚ) : (3 : ℤ) ∣ snap_to_worldcover_grid s :=
  Dvd.intro_left ⌊s / 3⌋ rfl

theorem snap_le (v : ℚ) : (snap_to_worldcover_grid v : ℚ) ≤ v := by
  unfold snap_to_worldcover_grid
  push_cast
  have h := Int.floor_le (v / 3)
  linarith

theorem snap_gt (v : ℚ) : v - 3 < (snap_to_worldcover_grid v : ℚ) := by
  unfold snap_to_worldcover_grid
  push_cast
  have h := Int.lt_floor_add_one (v / 3)
  linarith

theorem mem_gridSteps_snap {la : ℤ} {s n : ℚ} (hla : (3 : ℤ) ∣ la) :
    la ∈ gridSteps (snap_to_worldcover_grid s) n ↔
      (s < (la : ℚ) + 3 ∧ (la : ℚ) < n) := by
  rw [mem_gridSteps]
  constructor
  · rintro ⟨h1, h2, -⟩
    have h1' : ((snap_to_worldcover_grid s : ℤ) : ℚ) ≤ (la : ℚ) := by exact_mod_cast h1
    have := snap_gt s
    exact ⟨by linarith, h2⟩
  · rintro ⟨h1, h2⟩
    refine ⟨?_, h2, dvd_sub hla (dvd_snap s)⟩
    obtain ⟨k, rfl⟩ := hla
    unfold snap_to_worldcover_grid
    have hfl : ⌊s / 3⌋ < k + 1 := by
      rw [Int.floor_lt]
      rw [div_lt_iff₀ (by norm_num : (0:ℚ) < 3)]
      push_cast at h1 ⊢
      linarith
    omega

/-- C5: `snap_to_worldcover_grid` floor-divides toward negative infinity and
multiplies back by the cell size 3: the four documented examples hold, and for
every negative input the result is a multiple of 3 lying at most 3 below the
input (flooring toward −∞, never toward zero). -/
theorem snap_to_grid_floor_semantics :
    snap_to_worldcover_grid (-1/10) = -3 ∧
    snap_to_worldcover_grid 0 = 0 ∧
    snap_to_worldcover_grid (29/10) = 0 ∧
    snap_to_worldcover_grid 3 = 3 ∧
    ∀ v : ℚ, v < 0 →
      ((snap_to_worldcover_grid v : ℚ) ≤ v ∧
       v - 3 < (snap_to_worldcover_grid v : ℚ) ∧
       (3 : ℤ) ∣ snap_to_worldcover_grid v) := by
  refine ⟨?_, ?_, ?_, ?_, ?_⟩
  · show (⌊(-1/10 : ℚ) / 3⌋ * 3 : ℤ) = -3
    norm_num
  · show (⌊(0 : ℚ) / 3⌋ * 3 : ℤ) = 0
    norm_num
  · show (⌊(29/10 : ℚ) / 3⌋ * 3 : ℤ) = 0
    norm_num
  · show (⌊(3 : ℚ) / 3⌋ * 3 : ℤ) = 3
    norm_num
  · intro v _
    exact ⟨snap_le v, snap_gt v, dvd_snap v⟩

/-- Witness for C5 at the concrete negative input −0.1. -/
theorem snap_to_grid_floor_semantics_witness :
    (snap_to_worldcover_grid (-1/10) : ℚ) ≤ -1/10 ∧
    (-1/10 : ℚ) - 3 < (snap_to_worldcover_grid (-1/10) : ℚ) ∧
    (3 : ℤ) ∣ snap_to_worldcover_grid (-1/10) :=
  snap_to_grid_floor_semantics.2.2.2.2 (-1/10) (by norm_num)

/-- C9: the cell-enumeration loops of the tile selector terminate for every
bounding box, including degenerate ones where `start ≥ stop` after coordinate
transform (antimeridian/pole cases): `gridSteps` — the value sequence of each
`while` counter, which starts at the snapped coordinate and increases by the
3-degree cell size — satisfies the loop recurrence and is a finite list of
explicitly computable length. -/
theorem cell_enumeration_loops_terminate (start : ℤ) (stop : ℚ) :
    gridSteps start stop =
      (if (start : ℚ) < stop then start :: gridSteps (start + 3) stop else []) ∧
    (gridSteps start stop).length = (⌈(stop - start) / 3⌉).toNat :=
  ⟨gridSteps_unfold start stop, gridSteps_length start stop⟩

theorem tileIntersects_eq_true {west south east north : ℚ} {lat lon : ℤ} :
    tileIntersects west south east north lat lon = true ↔
      (west < (lon : ℚ) + 3 ∧ (lon : ℚ) < east ∧
       south < (lat : ℚ) + 3 ∧ (lat : ℚ) < north) := by
  simp only [tileIntersects, Bool.not_eq_true', Bool.or_eq_false_iff,
    decide_eq_false_iff_not, not_le, ge_iff_le]
  tauto

theorem mem_worldcoverCells {west south east north : ℚ} {la lo : ℤ} :
    (la, lo) ∈ worldcoverCells west south east north ↔
      (la ∈ gridSteps (snap_to_worldcover_grid south) north ∧
       lo ∈ gridSteps (snap_to_worldcover_grid west) east ∧
       tileIntersects west south east north la lo = true) := by
  simp only [worldcoverCells, List.mem_flatMap, List.mem_map, List.mem_filter]
  constructor
  · rintro ⟨lat, hlat, lon, ⟨hlon, hint⟩, heq⟩
    obtain ⟨rfl, rfl⟩ := Prod.mk.injEq .. ▸ heq
    exact ⟨hlat, hlon, hint⟩
  · rintro ⟨hlat, hlon, hint⟩
    exact ⟨la, hlat, lo, ⟨hlon, hint⟩, rfl⟩

/-- C4: for bounds with `west < east` and `south < north`, a 3°×3° grid cell
(keyed by its snapped, i.e. multiple-of-3, southwest corner) is enumerated by
`worldcoverCells` if and only if its footprint overlaps the box under the
half-open rule: exactly when none of the four disjointness conditions
`cell_east ≤ west`, `cell_west ≥ east`, `cell_north ≤ south`,
`cell_south ≥ north` holds. -/
theorem cells_intersecting_iff_overlap (west south east north : ℚ) (la lo : ℤ)
    (hwe : west < east) (hsn : south < north)
    (hla : (3 : ℤ) ∣ la) (hlo : (3 : ℤ) ∣ lo) :
    (la, lo) ∈ worldcoverCells west south east north ↔
      ¬(((lo : ℚ) + 3 ≤ west) ∨ ((lo : ℚ) ≥ east) ∨
        ((la : ℚ) + 3 ≤ south) ∨ ((la : ℚ) ≥ north)) := by
  rw [mem_worldcoverCells, mem_gridSteps_snap hla, mem_gridSteps_snap hlo,
    tileIntersects_eq_true]
  constructor
  · rintro ⟨⟨h3, h4⟩, ⟨h1, h2⟩, -⟩
    push_neg
    exact ⟨h1, h2, h3, h4⟩
  · intro h
    push_neg at h
    obtain ⟨h1, h2, h3, h4⟩ := h
    exact ⟨⟨h3, h4⟩, ⟨h1, h2⟩, h1, h2, h3, h4⟩

/-- Witness for C4: the cell with southwest corner (0°, 0°) is enumerated for
the box (−1, −1, 1, 1) exactly because it overlaps it. -/
theorem cells_intersecting_iff_overlap_witness :
    ((0 : ℤ), (0 : ℤ)) ∈ worldcoverCells (-1) (-1) 1 1 ↔
      ¬((((0:ℤ) : ℚ) + 3 ≤ -1) ∨ (((0:ℤ) : ℚ) ≥ 1) ∨
        ((((0:ℤ) : ℚ)) + 3 ≤ -1) ∨ (((0:ℤ) : ℚ) ≥ 1)) :=
  cells_intersecting_iff_overlap (-1) (-1) 1 1 0 0 (by norm_num) (by norm_num)
    ⟨0, by norm_num⟩ ⟨0, by norm_num⟩

/-- C3: when no candidate grid cell resolves to an existing tile file, the
selector returns the `NoTilesFoundError` hard failure (the code's
`RuntimeError("No matching WorldCover tiles found.")`), and a successful
return is never the empty list. -/
theorem selector_fails_when_no_tiles (west south east north : ℚ)
    (suffix : String) (dirContains : String → Bool) :
    ((∀ c ∈ worldcoverCells west south east north,
        dirContains (worldcover_tile_name c.1 c.2 suffix) = false) →
      find_required_worldcover_tiles west south east north suffix dirContains =
        Except.error NoTilesFoundError) ∧
    (∀ l, find_required_worldcover_tiles west south east north suffix dirContains =
        Except.ok l → l ≠ []) := by
  constructor
  · intro hnone
    have hfil : (((worldcoverCells west south east north).map
        (fun c => worldcover_tile_name c.1 c.2 suffix)).dedup.mergeSort
          (fun a b => decide (a ≤ b))).filter dirContains = [] := by
      rw [List.filter_eq_nil_iff]
      intro a ha
      rw [List.mem_mergeSort, List.mem_dedup, List.mem_map] at ha
      obtain ⟨c, hc, rfl⟩ := ha
      simp [hnone c hc]
    simp only [find_required_worldcover_tiles, hfil]
    rfl
  · intro l hl hnil
    simp only [find_required_worldcover_tiles] at hl
    by_cases he : (((worldcoverCells west south east north).map
        (fun c => worldcover_tile_name c.1 c.2 suffix)).dedup.mergeSort
          (fun a b => decide (a ≤ b))).filter dirContains |>.isEmpty
    · rw [if_pos he] at hl
      cases hl
    · rw [if_neg he] at hl
      injection hl with h
      rw [hnil] at h
      rw [h] at he
      simp at he

/-- Witness for C3: with an empty tile directory every candidate fails to
resolve and the selector returns the hard error. -/
theorem selector_fails_when_no_tiles_witness :
    find_required_worldcover_tiles 0 0 1 1 "_Map.tif" (fun _ => false) =
      Except.error NoTilesFoundError :=
  (selector_fails_when_no_tiles 0 0 1 1 "_Map.tif" (fun _ => false)).1
    (fun _ _ => rfl)

/-! ### MaskBuilder, MaskApplicator, RasterAligner, and aliasing claims -/

/-- C1: under every classification rule — the raw-code rule of
`build_land_mask`, the explicit land-code set of the hybrid script, and the
binary convention — a pixel holding a nodata sentinel (−1 of the reprojected
code array; 0, the raw WorldCover nodata; 255, the binary-convention nodata)
is classified `false`, never land. -/
theorem nodata_pixel_never_land {h w : Nat} (a : Pix h w → ℤ) (p : Pix h w) :
    (a p = -1 → landMaskOfCodes a p = false ∧ landMaskHybrid a p = false) ∧
    (a p = 0 → landMaskOfCodes a p = false ∧ landMaskBinary a p = false) ∧
    (a p = 255 → landMaskBinary a p = false) := by
  refine ⟨?_, ?_, ?_⟩ <;> intro hv <;>
    simp [landMaskOfCodes, landMaskHybrid, landMaskBinary,
      worldcover_land_rule, hybrid_land_rule, binary_land_rule, hv, LAND_CLASSES]

/-- Witness for C1 on a concrete all-nodata (−1) array. -/
theorem nodata_pixel_never_land_witness :
    landMaskOfCodes (fun _ : Pix 1 1 => (-1 : ℤ)) (0, 0) = false ∧
    landMaskHybrid (fun _ : Pix 1 1 => (-1 : ℤ)) (0, 0) = false :=
  (nodata_pixel_never_land (fun _ : Pix 1 1 => (-1 : ℤ)) (0, 0)).1 rfl

/-- C7: applying the mask-application step with an all-`false` mask returns
the data array unchanged; with an all-`true` mask every pixel becomes the
missing sentinel; in general a pixel is the missing sentinel exactly where
the mask is `true` and passes through where it is `false`. -/
theorem apply_mask_roundtrip {h w : Nat} (mask : PixMask h w)
    (data : Pix h w → Option ℚ) :
    applyLandMask (fun _ => false) data = data ∧
    applyLandMask (fun _ => true) data = (fun _ => none) ∧
    ∀ p, (mask p = true → applyLandMask mask data p = none) ∧
         (mask p = false → applyLandMask mask data p = data p) := by
  refine ⟨funext fun p => rfl, funext fun p => rfl, fun p => ⟨fun hm => ?_, fun hm => ?_⟩⟩
  · simp [applyLandMask, hm]
  · simp [applyLandMask, hm]

/-- Witness for C7 on a concrete all-`true` mask and data array. -/
theorem apply_mask_roundtrip_witness :
    applyLandMask (fun _ : Pix 1 1 => true) (fun _ => some 5) (0, 0) = none :=
  ((apply_mask_roundtrip (fun _ : Pix 1 1 => true) (fun _ => some 5)).2.2 (0, 0)).1 rfl

theorem accumulate_skip_all {h w : Nat} {Tile : Type}
    (srcBounds : Tile → GeoBounds) (dstBounds : GeoBounds)
    (reproject : Tile → (Pix h w → ℤ) → Bool → (Pix h w → ℤ)) :
    ∀ (l : List Tile) (st : (Pix h w → ℤ) × Bool),
      (∀ t ∈ l, tileOutsideDst (srcBounds t) dstBounds = true) →
      l.foldl (fun st tile =>
        if tileOutsideDst (srcBounds tile) dstBounds then st
        else (reproject tile st.1 st.2, false)) st = st := by
  intro l
  induction l with
  | nil => intro st _; rfl
  | cons t ts ih =>
    intro st hall
    simp only [List.foldl_cons]
    rw [if_pos (hall t (List.mem_cons_self t ts))]
    exact ih st (fun x hx => hall x (List.mem_cons_of_mem t hx))

/-- C6: in the direct multi-tile accumulation strategy, if every selected
tile is skipped by the bounding-box test against the destination bounds,
the loop completes normally and the returned destination array is entirely
the destination nodata sentinel. -/
theorem all_tiles_skipped_gives_all_nodata {h w : Nat} {Tile : Type}
    (tile_paths : List Tile) (srcBounds : Tile → GeoBounds) (dstBounds : GeoBounds)
    (dst_nodata : ℤ)
    (reproject : Tile → (Pix h w → ℤ) → Bool → (Pix h w → ℤ))
    (hskip : ∀ t ∈ tile_paths, tileOutsideDst (srcBounds t) dstBounds = true) :
    reproject_worldcover_tiles_to_s1 tile_paths srcBounds dstBounds dst_nodata
      reproject = (fun _ => dst_nodata) ∧
    reproject_preprocessed_landmask_tiles_to_s1 tile_paths srcBounds dstBounds
      dst_nodata reproject = (fun _ => dst_nodata) := by
  constructor
  · unfold reproject_worldcover_tiles_to_s1
    rw [accumulate_skip_all srcBounds dstBounds reproject tile_paths _ hskip]
  · unfold reproject_preprocessed_landmask_tiles_to_s1
    rw [accumulate_skip_all srcBounds dstBounds reproject tile_paths _ hskip]

/-- Witness for C6: a single tile fully west of the destination bounds is
skipped and the result is all nodata. -/
theorem all_tiles_skipped_gives_all_nodata_witness :
    reproject_worldcover_tiles_to_s1 [()] (fun _ => ⟨0, 0, 1, 1⟩) ⟨2, 2, 3, 3⟩ (-1)
      (fun (_ : Unit) (_ : Pix 1 1 → ℤ) (_ : Bool) => fun _ => 0)
      = (fun _ => (-1 : ℤ)) :=
  (all_tiles_skipped_gives_all_nodata [()] (fun _ => ⟨0, 0, 1, 1⟩) ⟨2, 2, 3, 3⟩ (-1)
    (fun (_ : Unit) (_ : Pix 1 1 → ℤ) (_ : Bool) => fun _ => 0)
    (fun t _ => by norm_num [tileOutsideDst])).1

/-- C10: `build_land_mask` never mutates the caller's SAR array: it
allocates a copy, masks the copy in place, and returns a reference distinct
from the input reference; the input array is unchanged in the store. -/
theorem build_land_mask_preserves_input {h w : Nat} (wc : Pix h w → ℤ)
    (sarRef : Nat) (st : FloatStore h w) (href : sarRef < st.size) :
    (build_land_mask wc sarRef st).2.2.data sarRef = st.data sarRef ∧
    (build_land_mask wc sarRef st).2.1 ≠ sarRef ∧
    (build_land_mask wc sarRef st).2.2.size = st.size + 1 := by
  have hne : sarRef ≠ st.size := by omega
  refine ⟨?_, ?_, ?_⟩
  · simp only [build_land_mask, FloatStore.copyAlloc, FloatStore.maskedFillNan]
    simp [hne]
  · simp only [build_land_mask, FloatStore.copyAlloc]
    omega
  · rfl

/-- Witness for C10 on a concrete one-array store. -/
theorem build_land_mask_preserves_input_witness :
    (build_land_mask (fun _ : Pix 1 1 => (0 : ℤ)) 0 ⟨1, fun _ _ => some 7⟩).2.2.data 0 =
      (⟨1, fun _ _ => some 7⟩ : FloatStore 1 1).data 0 ∧
    (build_land_mask (fun _ : Pix 1 1 => (0 : ℤ)) 0 ⟨1, fun _ _ => some 7⟩).2.1 ≠ 0 ∧
    (build_land_mask (fun _ : Pix 1 1 => (0 : ℤ)) 0 ⟨1, fun _ _ => some 7⟩).2.2.size = 1 + 1 :=
  build_land_mask_preserves_input (fun _ => (0 : ℤ)) 0 ⟨1, fun _ _ => some 7⟩ (by decide)

/-! ### `binary_fill_holes`: the masked dilation computes border reachability -/

theorem dilateStep_eq_true {h w : Nat} {m s : PixMask h w} {p : Pix h w} :
    dilateStep m s p = true ↔
      m p = false ∧ (s p = true ∨ onBorderB p = true ∨
        ∃ q, adj4B q p = true ∧ s q = true) := by
  simp [dilateStep, Bool.and_eq_true, Bool.or_eq_true, Bool.not_eq_true',
    decide_eq_true_eq, or_assoc]

theorem dilateStep_mono {h w : Nat} {m s t : PixMask h w}
    (hst : ∀ p, s p = true → t p = true) :
    ∀ p, dilateStep m s p = true → dilateStep m t p = true := by
  intro p hp
  rw [dilateStep_eq_true] at hp ⊢
  obtain ⟨hm, hca⟩ := hp
  refine ⟨hm, ?_⟩
  rcases hca with hc | hc | ⟨q, hq, hsq⟩
  · exact Or.inl (hst p hc)
  · exact Or.inr (Or.inl hc)
  · exact Or.inr (Or.inr ⟨q, hq, hst q hsq⟩)

theorem floodIter_le_succ {h w : Nat} (m : PixMask h w) :
    ∀ k (p : Pix h w), (dilateStep m)^[k] (fun _ => false) p = true →
      (dilateStep m)^[k + 1] (fun _ => false) p = true := by
  intro k
  induction k with
  | zero => exact fun p hp => Bool.noConfusion hp
  | succ n ih =>
    intro p hp
    rw [Function.iterate_succ_apply'] at hp ⊢
    exact dilateStep_mono ih p hp

theorem floodIter_background {h w : Nat} (m : PixMask h w) :
    ∀ k (p : Pix h w), (dilateStep m)^[k] (fun _ => false) p = true → m p = false := by
  intro k p hp
  cases k with
  | zero => exact Bool.noConfusion hp
  | succ n =>
    rw [Function.iterate_succ_apply'] at hp
    exact (dilateStep_eq_true.mp hp).1

theorem floodIter_reaches {h w : Nat} (m : PixMask h w) :
    ∀ k (p : Pix h w), (dilateStep m)^[k] (fun _ => false) p = true →
      ReachesBorder adj4B m p := by
  intro k
  induction k with
  | zero => exact fun p hp => absurd hp (by simp)
  | succ n ih =>
    intro p hp
    rw [Function.iterate_succ_apply', dilateStep_eq_true] at hp
    obtain ⟨hm, hca⟩ := hp
    rcases hca with hs | hb | ⟨q, hq, hsq⟩
    · exact ih p hs
    · exact ⟨hm, p, hb, hm, Relation.ReflTransGen.refl⟩
    · obtain ⟨-, b, hb1, hb2, hchain⟩ := ih q hsq
      exact ⟨hm, b, hb1, hb2, hchain.tail ⟨hq, hm⟩⟩

theorem mask_eq_of_le_le {h w : Nat} {s t : PixMask h w}
    (h1 : ∀ p, s p = true → t p = true) (h2 : ∀ p, t p = true → s p = true) :
    s = t := by
  funext p
  cases hs : s p with
  | true => exact (h1 p hs).symm
  | false =>
    cases ht : t p with
    | true => exact absurd (h2 p ht) (by simp [hs])
    | false => rfl

theorem supp_card_lt {h w : Nat} {s t : PixMask h w}
    (hle : ∀ p, s p = true → t p = true) (hne : s ≠ t) :
    (Finset.univ.filter (fun p : Pix h w => s p = true)).card <
      (Finset.univ.filter (fun p : Pix h w => t p = true)).card := by
  apply Finset.card_lt_card
  rw [Finset.ssubset_iff_subset_ne]
  refine ⟨?_, ?_⟩
  · intro p hp
    simp only [Finset.mem_filter, Finset.mem_univ, true_and] at hp ⊢
    exact hle p hp
  · intro heq
    apply hne
    apply mask_eq_of_le_le hle
    intro p hp
    have hmem : p ∈ Finset.univ.filter (fun p : Pix h w => t p = true) :=
      Finset.mem_filter.mpr ⟨Finset.mem_univ p, hp⟩
    rw [← heq] at hmem
    exact (Finset.mem_filter.mp hmem).2

theorem floodIter_stab {h w : Nat} (m : PixMask h w) {k : Nat}
    (hfix : (dilateStep m)^[k + 1] (fun _ => false) =
      (dilateStep m)^[k] (fun _ => false)) :
    ∀ j, k ≤ j → (dilateStep m)^[j] (fun _ => false) =
      (dilateStep m)^[k] (fun _ => false) := by
  intro j hj
  induction j, hj using Nat.le_induction with
  | base => rfl
  | succ n hn ih =>
    rw [Function.iterate_succ_apply', ih,
      ← Function.iterate_succ_apply' (dilateStep m) k (fun _ => false), hfix]

theorem floodIter_fix {h w : Nat} (m : PixMask h w) :
    (dilateStep m)^[h * w + 1] (fun _ => false) =
      (dilateStep m)^[h * w] (fun _ => false) := by
  by_contra hne
  have hstrict : ∀ k, k ≤ h * w →
      (dilateStep m)^[k + 1] (fun _ => false) ≠ (dilateStep m)^[k] (fun _ => false) := by
    intro k hk hfix
    have h1 := floodIter_stab m hfix (h * w) (by omega)
    have h2 := floodIter_stab m hfix (h * w + 1) (by omega)
    exact hne (by rw [h1, h2])
  have hcard : ∀ k, k ≤ h * w + 1 → k ≤ (Finset.univ.filter
      (fun p : Pix h w => (dilateStep m)^[k] (fun _ => false) p = true)).card := by
    intro k
    induction k with
    | zero => intro _; omega
    | succ n ih =>
      intro hn
      have hlt := supp_card_lt (floodIter_le_succ m n)
        (Ne.symm (hstrict n (by omega)))
      have := ih (by omega)
      omega
  have hbig := hcard (h * w + 1) (by omega)
  have hsmall : (Finset.univ.filter (fun p : Pix h w =>
      (dilateStep m)^[h * w + 1] (fun _ => false) p = true)).card ≤ h * w := by
    calc (Finset.univ.filter (fun p : Pix h w =>
        (dilateStep m)^[h * w + 1] (fun _ => false) p = true)).card
        ≤ (Finset.univ : Finset (Pix h w)).card := Finset.card_le_univ _
      _ = h * w := by simp [Finset.card_univ]
  omega

theorem floodReach_fixpoint {h w : Nat} (m : PixMask h w) :
    dilateStep m (floodReach m) = floodReach m := by
  unfold floodReach
  calc dilateStep m ((dilateStep m)^[h * w] (fun _ => false))
      = (dilateStep m)^[h * w + 1] (fun _ => false) :=
        (Function.iterate_succ_apply' _ _ _).symm
    _ = (dilateStep m)^[h * w] (fun _ => false) := floodIter_fix m

theorem reaches_floodReach {h w : Nat} (m : PixMask h w) (p : Pix h w)
    (hr : ReachesBorder adj4B m p) : floodReach m p = true := by
  obtain ⟨-, b, hb1, hb2, hchain⟩ := hr
  induction hchain with
  | refl =>
    rw [← floodReach_fixpoint m]
    exact dilateStep_eq_true.mpr ⟨hb2, Or.inr (Or.inl hb1)⟩
  | @tail c d h1 h2 ih =>
    rw [← floodReach_fixpoint m]
    exact dilateStep_eq_true.mpr ⟨h2.2, Or.inr (Or.inr ⟨c, h2.1, ih⟩)⟩

theorem floodReach_iff_reaches {h w : Nat} (m : PixMask h w) (p : Pix h w) :
    floodReach m p = true ↔ ReachesBorder adj4B m p :=
  ⟨floodIter_reaches m (h * w) p, reaches_floodReach m p⟩

theorem fill_holes_char {h w : Nat} (m : PixMask h w) (p : Pix h w) :
    binary_fill_holes m p = true ↔ ¬ ReachesBorder adj4B m p := by
  constructor
  · intro hfill hr
    have hf := reaches_floodReach m p hr
    rw [show binary_fill_holes m p = !(floodReach m p) from rfl, hf] at hfill
    exact Bool.noConfusion hfill
  · intro hnr
    have hf : floodReach m p = false := by
      cases hval : floodReach m p with
      | false => rfl
      | true => exact absurd (floodIter_reaches m (h * w) p hval) hnr
    rw [show binary_fill_holes m p = !(floodReach m p) from rfl, hf]
    rfl

theorem fill_holes_false_of_reaches {h w : Nat} (m : PixMask h w) {x : Pix h w}
    (hr : ReachesBorder adj4B m x) : binary_fill_holes m x = false := by
  cases hfx : binary_fill_holes m x with
  | false => rfl
  | true => exact absurd hr ((fill_holes_char m x).mp hfx)

theorem reaches_lift_fill {h w : Nat} (m : PixMask h w) {b p : Pix h w}
    (hb1 : onBorderB b = true) (hb2 : m b = false)
    (hchain : Relation.ReflTransGen (adjFalseStep adj4B m) b p) :
    Relation.ReflTransGen (adjFalseStep adj4B (binary_fill_holes m)) b p := by
  induction hchain with
  | refl => exact Relation.ReflTransGen.refl
  | @tail c d h1 h2 ih =>
    refine ih.tail ⟨h2.1, ?_⟩
    exact fill_holes_false_of_reaches m ⟨h2.2, b, hb1, hb2, h1.tail h2⟩

/-- C2 (amended): `binary_fill_holes` flood-fills from the mask's border
through `false` pixels using the default cross-shaped structuring element —
4-connectivity (orthogonal neighbours only), not full 2D 8-connectivity —
and flips to `true` exactly the `false` pixels in `false` regions not
reachable from the border under 4-connectivity; all other pixels are
unchanged. -/
theorem fill_holes_flips_unreachable_4conn {h w : Nat} (m : PixMask h w)
    (p : Pix h w) :
    binary_fill_holes m p = true ↔ (m p = true ∨ ¬ ReachesBorder adj4B m p) := by
  rw [fill_holes_char]
  constructor
  · exact Or.inr
  · rintro (hm | hnr)
    · intro hr
      rw [hr.1] at hm
      exact Bool.noConfusion hm
    · exact hnr

/-- C2 as stated is false: in `diagHoleMask` the centre water pixel is
8-connected (diagonally) to the border water pixel at the corner, so the
spec's 8-connectivity flood fill would keep it `false`, yet the code's
`binary_fill_holes` (4-connectivity) flips it to `true`. -/
theorem fill_holes_not_8conn_counterexample :
    binary_fill_holes diagHoleMask (1, 1) = true ∧
    ¬(diagHoleMask (1, 1) = true ∨ ¬ ReachesBorder adj8B diagHoleMask (1, 1)) := by
  constructor
  · decide
  · rintro (hm | hnr)
    · exact absurd hm (by decide)
    · apply hnr
      refine ⟨by decide, (2, 2), by decide, by decide, ?_⟩
      exact Relation.ReflTransGen.single ⟨by decide, by decide⟩

/-- C8: `binary_fill_holes` is idempotent: filling holes twice yields the
same mask as filling them once. -/
theorem fill_holes_idempotent {h w : Nat} (m : PixMask h w) :
    binary_fill_holes (binary_fill_holes m) = binary_fill_holes m := by
  funext p
  set m' := binary_fill_holes m with hm'
  cases hval : m' p with
  | true =>
    refine (fill_holes_char m' p).mpr (fun hr => ?_)
    have := hr.1
    rw [hval] at this
    exact Bool.noConfusion this
  | false =>
    have hreach : ReachesBorder adj4B m p := by
      by_contra hnr
      have hfill := (fill_holes_char m p).mpr hnr
      rw [← hm'] at hfill
      rw [hval] at hfill
      exact Bool.noConfusion hfill
    obtain ⟨hp, b, hb1, hb2, hchain⟩ := hreach
    have hchain' := reaches_lift_fill m hb1 hb2 hchain
    have hb' : binary_fill_holes m b = false :=
      fill_holes_false_of_reaches m ⟨hb2, b, hb1, hb2, Relation.ReflTransGen.refl⟩
    have hreach' : ReachesBorder adj4B m' p := by
      refine ⟨hval, b, hb1, ?_, ?_⟩
      · rw [hm']
        exact hb'
      · rw [hm']
        exact hchain'
    exact fill_holes_false_of_reaches m' hreach'

end SentinelLandMask
